import Mathlib

/-!
Verification of the Fourier-series visualizer engine.

Shallow embedding of `fourier_math.py` (the `Epicycle` dataclass and the
`FourierSeries` class) and of the engine-relevant parts of
`fourier_visualizer.py` (the `FourierVisualizer` state, `_update_terms`,
`_switch_function`, `_reset_animation`, and the per-tick `update` driver,
whose trace-limiting lines model the spec's TraceBuffer).

Python ints are modelled as `ℤ` (term counts can be negative in principle),
floats as `ℝ`, Python's float `%` with a positive divisor as floored
remainder `pmod`, and Python lists as `List`.
-/

open Real

noncomputable section

/-- The `Epicycle` dataclass: `frequency: int`, `amplitude: float`,
`phase: float = 0.0`, `angle: float = 0.0`. -/
structure Epicycle where
  frequency : ℤ
  amplitude : ℝ
  phase : ℝ := 0
  angle : ℝ := 0

/-- The mutable state of the `FourierSeries` class:
`function_type`, `epicycles`, `time`, `max_terms`. -/
structure FourierSeries where
  function_type : String
  epicycles : List Epicycle
  time : ℝ
  max_terms : ℤ

/-- The epicycle list built by `FourierSeries.calculate_rectangular`:
`for n in range(1, num_terms + 1)`, harmonic `2n - 1`,
amplitude `(4.0 / pi) * (1.0 / harmonic)`, phase `0.0`. -/
def rectangularEpicycles (num_terms : ℤ) : List Epicycle :=
  (List.range num_terms.toNat).map (fun (i : ℕ) =>
    let n : ℤ := (i : ℤ) + 1
    let harmonic : ℤ := 2 * n - 1
    { frequency := harmonic
      amplitude := (4 / π) * (1 / (harmonic : ℝ))
      phase := 0
      angle := 0 })

/-- The epicycle list built by `FourierSeries.calculate_sawtooth`:
`for n in range(1, num_terms + 1)`, `sign = 1 if (n % 2 == 1) else -1`,
amplitude `abs((2.0 / pi) * sign * (1.0 / n))`,
phase `0.0 if sign > 0 else pi`. -/
def sawtoothEpicycles (num_terms : ℤ) : List Epicycle :=
  (List.range num_terms.toNat).map (fun (i : ℕ) =>
    let n : ℤ := (i : ℤ) + 1
    let sign : ℤ := if n % 2 = 1 then 1 else -1
    { frequency := n
      amplitude := |(2 / π) * (sign : ℝ) * (1 / (n : ℝ))|
      phase := if 0 < sign then 0 else π
      angle := 0 })

/-- `FourierSeries.calculate_rectangular`: replaces `self.epicycles` and
sets `self.max_terms = num_terms`. -/
def calculate_rectangular (s : FourierSeries) (num_terms : ℤ) : FourierSeries :=
  { s with epicycles := rectangularEpicycles num_terms, max_terms := num_terms }

/-- `FourierSeries.calculate_sawtooth`: replaces `self.epicycles` and
sets `self.max_terms = num_terms`. -/
def calculate_sawtooth (s : FourierSeries) (num_terms : ℤ) : FourierSeries :=
  { s with epicycles := sawtoothEpicycles num_terms, max_terms := num_terms }

/-- `FourierSeries.update(time)`: sets `self.time` and, for each epicycle,
`angle = frequency * time + phase`. -/
def fourier_update (s : FourierSeries) (t : ℝ) : FourierSeries :=
  { s with
    time := t
    epicycles := s.epicycles.map (fun e =>
      { e with angle := (e.frequency : ℝ) * t + e.phase }) }

/-- One displacement step of `FourierSeries.get_epicycle_points`: the next
point is the current one moved by
`(amplitude * scale * cos(angle), amplitude * scale * sin(angle))`. -/
def epicycleStep (scale : ℝ) (p : ℝ × ℝ) (e : Epicycle) : ℝ × ℝ :=
  (p.1 + e.amplitude * scale * Real.cos e.angle,
   p.2 + e.amplitude * scale * Real.sin e.angle)

/-- The loop of `FourierSeries.get_epicycle_points`: starting from the
current point, append each successive displaced point in list order. -/
def epicyclePointsAux (scale : ℝ) (cur : ℝ × ℝ) : List Epicycle → List (ℝ × ℝ)
  | [] => []
  | e :: rest =>
    let next := epicycleStep scale cur e
    next :: epicyclePointsAux scale next rest

/-- `FourierSeries.get_epicycle_points(center_x, center_y, scale)`:
`points = [(center_x, center_y)]` followed by the accumulated chain. -/
def get_epicycle_points (s : FourierSeries) (center_x center_y scale : ℝ) :
    List (ℝ × ℝ) :=
  (center_x, center_y) :: epicyclePointsAux scale (center_x, center_y) s.epicycles

/-- The point list of `get_epicycle_points` is never empty: it always starts
with the center point, so the `points[-1]` access in `get_final_point`
always succeeds. -/
theorem get_epicycle_points_ne_nil (s : FourierSeries) (cx cy scale : ℝ) :
    get_epicycle_points s cx cy scale ≠ [] := by
  simp [get_epicycle_points]

/-- `FourierSeries.get_final_point`: `points[-1]`, the last element of the
list returned by `get_epicycle_points` (total because that list is
provably non-empty). -/
def get_final_point (s : FourierSeries) (center_x center_y scale : ℝ) : ℝ × ℝ :=
  (get_epicycle_points s center_x center_y scale).getLast
    (get_epicycle_points_ne_nil s center_x center_y scale)

/-- `FourierSeries.get_approximation_value`: `total = 0.0`, then
`total += amplitude * sin(angle)` over the epicycles. -/
def get_approximation_value (s : FourierSeries) : ℝ :=
  s.epicycles.foldl (fun total e => total + e.amplitude * Real.sin e.angle) 0

/-- Python's float `%`, floored remainder: `a - b * floor(a / b)`
(for a positive divisor this agrees with Python's `%` operator). -/
def pmod (a b : ℝ) : ℝ := a - b * (⌊a / b⌋ : ℝ)

/-- The normalization `((t % (2*pi)) + 2*pi) % (2*pi)` computed inside
`_rectangular_wave` and `_sawtooth_wave`. -/
def normalize_time (t : ℝ) : ℝ := pmod (pmod t (2 * π) + 2 * π) (2 * π)

/-- `FourierSeries._rectangular_wave(t)`: `1.0 if normalized < pi else -1.0`. -/
def rectangular_wave (t : ℝ) : ℝ :=
  if normalize_time t < π then 1 else -1

/-- `FourierSeries._sawtooth_wave(t)`: `-1.0 + (2.0 * normalized) / (2*pi)`. -/
def sawtooth_wave (t : ℝ) : ℝ :=
  -1 + (2 * normalize_time t) / (2 * π)

/-- `FourierSeries.get_true_value`: dispatch on `function_type`, returning
`0.0` for any unrecognized family string. -/
def get_true_value (s : FourierSeries) : ℝ :=
  if s.function_type = "rectangular" then rectangular_wave s.time
  else if s.function_type = "sawtooth" then sawtooth_wave s.time
  else 0

/-- `FourierSeries.get_error`: `(true_val - approx_val) ** 2`. -/
def get_error (s : FourierSeries) : ℝ :=
  (get_true_value s - get_approximation_value s) ^ 2

/-- `FourierSeries.set_function_type`: store the new string, then
regenerate at `self.max_terms` only when the string names a known family. -/
def set_function_type (s : FourierSeries) (ft : String) : FourierSeries :=
  let s1 := { s with function_type := ft }
  if ft = "rectangular" then calculate_rectangular s1 s1.max_terms
  else if ft = "sawtooth" then calculate_sawtooth s1 s1.max_terms
  else s1

/-- The engine-relevant state of `FourierVisualizer`: the owned
`FourierSeries`, driver time, speed, pause flag, trace list with its bound,
and the projection parameters read from the configuration. -/
structure Visualizer where
  fourier : FourierSeries
  time : ℝ
  animation_speed : ℝ
  paused : Bool
  trace_points : List (ℝ × ℝ)
  max_trace_length : ℕ
  win_width : ℤ
  win_height : ℤ
  epicycle_scale : ℝ

/-- `FourierVisualizer._update_terms(num_terms)`: regenerate the epicycles
for the current family; nothing else changes. -/
def update_terms (v : Visualizer) (num_terms : ℤ) : Visualizer :=
  if v.fourier.function_type = "rectangular" then
    { v with fourier := calculate_rectangular v.fourier num_terms }
  else
    { v with fourier := calculate_sawtooth v.fourier num_terms }

/-- `FourierVisualizer._reset_animation`: `time = 0.0`,
`trace_points = []`, `paused = False`. -/
def reset_animation (v : Visualizer) : Visualizer :=
  { v with time := 0, trace_points := [], paused := false }

/-- `FourierVisualizer._switch_function(func_type)`:
`set_function_type` on the series, then `_reset_animation`. -/
def switch_function (v : Visualizer) (ft : String) : Visualizer :=
  reset_animation { v with fourier := set_function_type v.fourier ft }

/-- The period-wrap step inside `FourierVisualizer.update`:
`if time >= 2*pi: time -= 2*pi; trace_points = []`. -/
def wrapStep (t : ℝ) (trace : List (ℝ × ℝ)) : ℝ × List (ℝ × ℝ) :=
  if 2 * π ≤ t then (t - 2 * π, []) else (t, trace)

/-- The trace-bounding push at the end of `FourierVisualizer.update`:
`trace_points.append(point)` followed by
`if len(trace_points) > max_trace_length: trace_points.pop(0)`. -/
def tracePush (cap : ℕ) (buf : List (ℝ × ℝ)) (p : ℝ × ℝ) : List (ℝ × ℝ) :=
  let b := buf ++ [p]
  if cap < b.length then b.tail else b

/-- `FourierVisualizer.update`: when not paused, advance time, apply the
period wrap, phase-advance the series, project the final point at the
window center, and push it into the bounded trace. -/
def update (v : Visualizer) : Visualizer :=
  if v.paused then v
  else
    let t1 := v.time + v.animation_speed
    let w := wrapStep t1 v.trace_points
    let f2 := fourier_update v.fourier w.1
    let cx : ℝ := ((Int.fdiv v.win_width 2 : ℤ) : ℝ)
    let cy : ℝ := ((Int.fdiv v.win_height 2 : ℤ) : ℝ)
    let fp := get_final_point f2 cx cy v.epicycle_scale
    { v with
      time := w.1
      fourier := f2
      trace_points := tracePush v.max_trace_length w.2 fp }

/-! ### Range of the Python modulo and the normalization -/

/-- For a nonzero divisor, the floored remainder is the divisor times the
fractional part of the quotient. -/
theorem pmod_eq_fract (a : ℝ) {b : ℝ} (hb : b ≠ 0) :
    pmod a b = b * Int.fract (a / b) := by
  have hba : b * (a / b) = a := by field_simp
  rw [pmod, Int.fract, mul_sub, hba]

/-- The floored remainder by a positive divisor is non-negative. -/
theorem pmod_nonneg (a : ℝ) {b : ℝ} (hb : 0 < b) : 0 ≤ pmod a b := by
  rw [pmod_eq_fract a hb.ne']
  exact mul_nonneg hb.le (Int.fract_nonneg _)

/-- The floored remainder by a positive divisor is below the divisor. -/
theorem pmod_lt (a : ℝ) {b : ℝ} (hb : 0 < b) : pmod a b < b := by
  rw [pmod_eq_fract a hb.ne']
  nlinarith [Int.fract_lt_one (a / b), Int.fract_nonneg (a / b)]

/-- The double-mod normalization always lands in `[0, 2*pi)`. -/
theorem normalize_time_nonneg (t : ℝ) : 0 ≤ normalize_time t :=
  pmod_nonneg _ Real.two_pi_pos

/-- Upper half of the normalization range. -/
theorem normalize_time_lt (t : ℝ) : normalize_time t < 2 * π :=
  pmod_lt _ Real.two_pi_pos

/-! ### Claims -/

/-- C1 (amended): calling the coefficient generator with `n ≤ 0` returns an
empty sequence without raising any error, while for every `n ≥ 1` it
returns an ordered sequence of exactly `n` epicycles. -/
theorem claim_C1 (n : ℤ) :
    (n ≤ 0 → rectangularEpicycles n = [] ∧ sawtoothEpicycles n = []) ∧
    (1 ≤ n → ((rectangularEpicycles n).length : ℤ) = n ∧
      ((sawtoothEpicycles n).length : ℤ) = n) := by
  constructor
  · intro h
    have h0 : n.toNat = 0 := by omega
    simp [rectangularEpicycles, sawtoothEpicycles, h0]
  · intro h
    have h1 : (n.toNat : ℤ) = n := by omega
    have h2 : (rectangularEpicycles n).length = n.toNat := by
      unfold rectangularEpicycles
      rw [List.length_map, List.length_range]
    have h3 : (sawtoothEpicycles n).length = n.toNat := by
      unfold sawtoothEpicycles
      rw [List.length_map, List.length_range]
    rw [h2, h3]
    exact ⟨h1, h1⟩

/-- C1 counterexample to the claim as stated: the generators at term count
`0` succeed and produce the empty series; nothing fails. -/
theorem claim_C1_counterexample :
    (calculate_rectangular ⟨"rectangular", [], 0, 10⟩ 0).epicycles = [] ∧
    (calculate_sawtooth ⟨"sawtooth", [], 0, 10⟩ 0).epicycles = [] :=
  ⟨rfl, rfl⟩

/-- C1 witness: the amended claim evaluated at `n = -1` and `n = 3`. -/
theorem claim_C1_witness :
    rectangularEpicycles (-1) = [] ∧
    ((rectangularEpicycles 3).length : ℤ) = 3 :=
  ⟨((claim_C1 (-1)).1 (by decide)).1, ((claim_C1 3).2 (by decide)).1⟩

/-- C2 (amended): changing the term count regenerates the coefficient
sequence for the current family but leaves the play/pause flag, the time,
and the trace buffer unchanged (no reset); switching the waveform family
regenerates the coefficient set and performs the explicit reset, which sets
time to 0, empties the trace buffer, and forces the play flag to playing. -/
theorem claim_C2 (v : Visualizer) (n : ℤ) (ft : String) :
    (update_terms v n).paused = v.paused ∧
    (update_terms v n).time = v.time ∧
    (update_terms v n).trace_points = v.trace_points ∧
    (update_terms v n).fourier.epicycles =
      (if v.fourier.function_type = "rectangular" then rectangularEpicycles n
       else sawtoothEpicycles n) ∧
    (reset_animation v).time = 0 ∧
    (reset_animation v).trace_points = [] ∧
    (reset_animation v).paused = false ∧
    (switch_function v ft).time = 0 ∧
    (switch_function v ft).trace_points = [] ∧
    (switch_function v ft).paused = false ∧
    (switch_function v ft).fourier = set_function_type v.fourier ft := by
  by_cases h : v.fourier.function_type = "rectangular" <;>
    simp [update_terms, switch_function, reset_animation, h,
      calculate_rectangular, calculate_sawtooth]

/-- Concrete series used in the C2 counterexample. -/
def fsC2 : FourierSeries := ⟨"rectangular", [], 0, 5⟩

/-- Concrete paused visualizer state used in the C2 counterexample. -/
def vC2 : Visualizer := ⟨fsC2, 1, 1 / 100, true, [(0, 0)], 100, 800, 600, 1⟩

/-- C2 counterexample to the claim as stated: on a paused state with
time 1, changing the term count does not set time to 0, and switching the
family does not preserve the pause flag. -/
theorem claim_C2_counterexample :
    ¬ ((update_terms vC2 3).time = 0 ∧
       (switch_function vC2 "sawtooth").paused = vC2.paused) := by
  intro h
  have h1 : (update_terms vC2 3).time = 1 := rfl
  rw [h.1] at h1
  norm_num at h1

/-- C6: for every real time, the ground-truth evaluator's normalization
`((t mod 2*pi) + 2*pi) mod 2*pi` lands in `[0, 2*pi)`, and the evaluator
returns the step function for the rectangular family and the linear ramp
for the sawtooth family, expressed in the normalized time. -/
theorem claim_C6 (t : ℝ) (s : FourierSeries) :
    0 ≤ normalize_time t ∧ normalize_time t < 2 * π ∧
    normalize_time t = pmod (pmod t (2 * π) + 2 * π) (2 * π) ∧
    (s.function_type = "rectangular" →
      get_true_value s = if normalize_time s.time < π then 1 else -1) ∧
    (s.function_type = "sawtooth" →
      get_true_value s = -1 + 2 * normalize_time s.time / (2 * π)) := by
  refine ⟨normalize_time_nonneg t, normalize_time_lt t, rfl, ?_, ?_⟩
  · intro h
    simp [get_true_value, h, rectangular_wave]
  · intro h
    simp [get_true_value, h, sawtooth_wave]

/-- Concrete series used in the C6 witness. -/
def fsC6 : FourierSeries := ⟨"rectangular", [], -1, 10⟩

/-- C6 witness: the claim applied at the negative time `-1` on a concrete
rectangular-family state. -/
theorem claim_C6_witness :
    fsC6.function_type = "rectangular" ∧
    get_true_value fsC6 = if normalize_time fsC6.time < π then 1 else -1 :=
  ⟨rfl, (claim_C6 (-1) fsC6).2.2.2.1 rfl⟩

/-- Folding the approximation accumulator from any seed adds the mapped sum. -/
theorem foldl_amp_sin (l : List Epicycle) (a : ℝ) :
    l.foldl (fun total e => total + e.amplitude * Real.sin e.angle) a =
      a + (l.map (fun e => e.amplitude * Real.sin e.angle)).sum := by
  induction l generalizing a with
  | nil => simp
  | cons e rest ih => simp [ih]; ring

/-- C7: the approximation value is the sum of `amplitude * sin(angle)` over
all epicycles, and the error is exactly the squared difference from the
ground truth, hence non-negative. -/
theorem claim_C7 (s : FourierSeries) :
    get_approximation_value s =
      (s.epicycles.map (fun e => e.amplitude * Real.sin e.angle)).sum ∧
    get_error s = (get_true_value s - get_approximation_value s) ^ 2 ∧
    0 ≤ get_error s := by
  refine ⟨?_, rfl, sq_nonneg _⟩
  rw [get_approximation_value, foldl_amp_sin]
  ring

/-- C9: setting an unrecognized family string updates only the stored name,
leaving the epicycles and the stored term count unchanged, and the
ground-truth evaluation on the resulting state silently returns 0. -/
theorem claim_C9 (s : FourierSeries) (ft : String)
    (h1 : ft ≠ "rectangular") (h2 : ft ≠ "sawtooth") :
    (set_function_type s ft).function_type = ft ∧
    (set_function_type s ft).epicycles = s.epicycles ∧
    (set_function_type s ft).max_terms = s.max_terms ∧
    get_true_value (set_function_type s ft) = 0 := by
  simp [set_function_type, get_true_value, h1, h2]

/-- Concrete series used in the C9 witness. -/
def fsC9 : FourierSeries := ⟨"rectangular", [⟨1, 1, 0, 0⟩], 0.5, 1⟩

/-- C9 witness: the claim applied to the unknown family string
`"triangle"` on a concrete state. -/
theorem claim_C9_witness :
    ("triangle" : String) ≠ "rectangular" ∧
    ("triangle" : String) ≠ "sawtooth" ∧
    ((set_function_type fsC9 "triangle").function_type = "triangle" ∧
     (set_function_type fsC9 "triangle").epicycles = fsC9.epicycles ∧
     (set_function_type fsC9 "triangle").max_terms = fsC9.max_terms ∧
     get_true_value (set_function_type fsC9 "triangle") = 0) :=
  ⟨by decide, by decide, claim_C9 fsC9 "triangle" (by decide) (by decide)⟩

/-- C10: projecting a state with no epicycles returns exactly the
one-element sequence holding the origin, and the final point is the origin;
the trailing last-element access cannot fail because the point sequence is
never empty. -/
theorem claim_C10 (s : FourierSeries) (cx cy scale : ℝ)
    (h : s.epicycles = []) :
    get_epicycle_points s cx cy scale ≠ [] ∧
    get_epicycle_points s cx cy scale = [(cx, cy)] ∧
    get_final_point s cx cy scale = (cx, cy) := by
  have hpts : get_epicycle_points s cx cy scale = [(cx, cy)] := by
    simp [get_epicycle_points, h, epicyclePointsAux]
  have hlast : (get_epicycle_points s cx cy scale).getLast? =
      some (get_final_point s cx cy scale) :=
    List.getLast?_eq_getLast _ _
  rw [hpts] at hlast
  simp only [List.getLast?_singleton, Option.some.injEq] at hlast
  exact ⟨get_epicycle_points_ne_nil s cx cy scale, hpts, hlast.symm⟩

/-- Concrete empty-chain series used in the C10 witness. -/
def fsC10 : FourierSeries := ⟨"rectangular", [], 0, 0⟩

/-- C10 witness: the claim applied to a concrete state with an empty
epicycle sequence. -/
theorem claim_C10_witness :
    fsC10.epicycles = [] ∧
    (get_epicycle_points fsC10 3 4 2 ≠ [] ∧
     get_epicycle_points fsC10 3 4 2 = [(3, 4)] ∧
     get_final_point fsC10 3 4 2 = (3, 4)) :=
  ⟨rfl, claim_C10 fsC10 3 4 2 rfl⟩

/-- C4: position `k` (1-based) of the rectangular sequence is the harmonic
`2k - 1` with amplitude `(4/pi)/(2k - 1)` and phase 0; position `k` of the
sawtooth sequence is the harmonic `k` with non-negative amplitude
`|(2/pi) * sign / k|` (sign `+1` for odd `k`, `-1` for even `k`) and phase
`0` when the sign is positive, `pi` otherwise. -/
theorem claim_C4 (n : ℤ) (k : ℕ) (hk : 1 ≤ k) (hkn : (k : ℤ) ≤ n) :
    (rectangularEpicycles n)[k - 1]? =
      some { frequency := 2 * (k : ℤ) - 1
             amplitude := (4 / π) * (1 / (2 * (k : ℝ) - 1))
             phase := 0
             angle := 0 } ∧
    (sawtoothEpicycles n)[k - 1]? =
      some { frequency := (k : ℤ)
             amplitude := |(2 / π) * (if k % 2 = 1 then (1 : ℝ) else -1) / (k : ℝ)|
             phase := if (0 : ℝ) < (if k % 2 = 1 then (1 : ℝ) else -1) then 0 else π
             angle := 0 } ∧
    0 ≤ |(2 / π) * (if k % 2 = 1 then (1 : ℝ) else -1) / (k : ℝ)| := by
  obtain ⟨i, rfl⟩ : ∃ i, k = i + 1 := ⟨k - 1, by omega⟩
  have hi : i < n.toNat := by omega
  refine ⟨?_, ?_, abs_nonneg _⟩
  · unfold rectangularEpicycles
    simp only [Nat.add_sub_cancel, List.getElem?_map, List.getElem?_range hi,
      Option.map_some', Option.some.injEq, Epicycle.mk.injEq]
    refine ⟨by push_cast; ring, by push_cast; ring_nf, trivial, trivial⟩
  · unfold sawtoothEpicycles
    simp only [Nat.add_sub_cancel, List.getElem?_map, List.getElem?_range hi,
      Option.map_some', Option.some.injEq, Epicycle.mk.injEq]
    rcases Nat.mod_two_eq_zero_or_one (i + 1) with hpar | hpar
    · have hz1 : ¬ (((i : ℤ) + 1) % 2 = 1) := by omega
      rw [if_neg hz1]
      simp only [hpar]
      norm_num
      ring_nf
      rw [abs_neg]
    · have hz : ((i : ℤ) + 1) % 2 = 1 := by omega
      rw [if_pos hz]
      simp only [hpar]
      norm_num
      ring_nf

/-- C4 witness: the sawtooth formula evaluated at position `k = 2` of the
two-term sequence (the even-harmonic, phase-`pi` case). -/
theorem claim_C4_witness :
    (1 ≤ 2) ∧ ((2 : ℕ) : ℤ) ≤ (2 : ℤ) ∧
    0 ≤ |(2 / π) * (if (2 : ℕ) % 2 = 1 then (1 : ℝ) else -1) / ((2 : ℕ) : ℝ)| :=
  ⟨by decide, by decide, (claim_C4 2 2 (by decide) (by decide)).2.2⟩

/-- The chain accumulator produces one point per epicycle. -/
theorem epicyclePointsAux_length (scale : ℝ) :
    ∀ (es : List Epicycle) (cur : ℝ × ℝ),
      (epicyclePointsAux scale cur es).length = es.length := by
  intro es
  induction es with
  | nil => intro cur; rfl
  | cons e rest ih => intro cur; simp [epicyclePointsAux, ih]

/-- Each point of the chain (past the head) is the previous point displaced
by the epicycle at the same index, in stored list order. -/
theorem epicyclePointsAux_step (scale : ℝ) :
    ∀ (es : List Epicycle) (cur : ℝ × ℝ) (i : ℕ),
      (cur :: epicyclePointsAux scale cur es)[i + 1]? =
        Option.map₂ (epicycleStep scale)
          (cur :: epicyclePointsAux scale cur es)[i]? es[i]? := by
  intro es
  induction es with
  | nil => intro cur i; simp [epicyclePointsAux, Option.map₂]
  | cons e rest ih =>
    intro cur i
    cases i with
    | zero => simp [epicyclePointsAux, Option.map₂]
    | succ j => simpa [epicyclePointsAux] using ih (epicycleStep scale cur e) j

/-- C5: the projection returns `termCount + 1` points whose head is the
origin, each later point is the previous one displaced by the epicycle at
the same position (insertion order), and the final-point operation returns
exactly the last element of that sequence. -/
theorem claim_C5 (s : FourierSeries) (cx cy scale : ℝ) :
    (get_epicycle_points s cx cy scale).length = s.epicycles.length + 1 ∧
    (get_epicycle_points s cx cy scale).head? = some (cx, cy) ∧
    (∀ i : ℕ, (get_epicycle_points s cx cy scale)[i + 1]? =
      Option.map₂ (epicycleStep scale) (get_epicycle_points s cx cy scale)[i]?
        s.epicycles[i]?) ∧
    (get_epicycle_points s cx cy scale).getLast? =
      some (get_final_point s cx cy scale) := by
  refine ⟨?_, rfl, ?_, List.getLast?_eq_getLast _ _⟩
  · simp [get_epicycle_points, epicyclePointsAux_length]
  · intro i
    exact epicyclePointsAux_step scale s.epicycles (cx, cy) i

/-- Folding the bounded trace push over any sequence of points keeps
exactly the most recent `cap` of them. -/
theorem tracePush_foldl (cap : ℕ) (ps : List (ℝ × ℝ)) :
    ps.foldl (tracePush cap) [] = ps.drop (ps.length - cap) := by
  induction ps using List.reverseRecOn with
  | nil => simp
  | append_singleton l p ih =>
    rw [List.foldl_append, List.foldl_cons, List.foldl_nil, ih]
    unfold tracePush
    by_cases hc : l.length < cap
    · have hd : l.length - cap = 0 := by omega
      have hd2 : l.length + 1 - cap = 0 := by omega
      rw [hd, List.drop_zero]
      rw [if_neg (by simp; omega)]
      simp [hd2]
    · have hlen : (l.drop (l.length - cap) ++ [p]).length = cap + 1 := by
        simp
        omega
      rw [if_pos (by rw [hlen]; omega)]
      rcases Nat.eq_zero_or_pos cap with hcap0 | hcap1
      · subst hcap0
        simp
      · have hne : l.drop (l.length - cap) ≠ [] := by
          intro hnil
          have := congrArg List.length hnil
          simp at this
          omega
        obtain ⟨hd', tl', heq⟩ := List.exists_cons_of_ne_nil hne
        rw [heq]
        have htl : (hd' :: tl').tail = tl' := rfl
        have hdrop1 : tl' = l.drop (l.length - cap + 1) := by
          have := congrArg List.tail heq
          rw [List.tail_drop] at this
          exact (this.trans htl).symm ▸ rfl
        simp only [List.cons_append, List.tail_cons]
        rw [hdrop1]
        have harith : l.length - cap + 1 = l.length + 1 - cap := by omega
        rw [harith]
        rw [← List.drop_append_of_le_length (by omega)]
        simp

/-- C8: with positive capacity, the trace buffer's length never exceeds the
capacity after any push of the sequence completes, and pushing
`capacity + 1` points into an empty buffer evicts exactly the oldest one,
leaving the second pushed point first. -/
theorem claim_C8 (cap : ℕ) (ps : List (ℝ × ℝ)) (hcap : 0 < cap) :
    (∀ k : ℕ, ((ps.take k).foldl (tracePush cap) []).length ≤ cap) ∧
    (ps.length = cap + 1 →
      (ps.foldl (tracePush cap) []).head? = ps[1]?) := by
  constructor
  · intro k
    rw [tracePush_foldl, List.length_drop]
    omega
  · intro hlen
    rw [tracePush_foldl, hlen]
    have h1 : cap + 1 - cap = 1 := by omega
    rw [h1, List.head?_eq_getElem?, List.getElem?_drop]

/-- C8 witness: capacity 2, three distinct points pushed; the head of the
resulting buffer is the second point. -/
theorem claim_C8_witness :
    (0 < 2) ∧
    (([((1 : ℝ), (1 : ℝ)), (2, 2), (3, 3)] : List (ℝ × ℝ)).foldl
        (tracePush 2) []).head? =
      ([((1 : ℝ), (1 : ℝ)), (2, 2), (3, 3)] : List (ℝ × ℝ))[1]? :=
  ⟨by decide, (claim_C8 2 [(1, 1), (2, 2), (3, 3)] (by decide)).2 rfl⟩

/-- C3: on an un-paused tick whose incremented time reaches `2*pi` (with
the loop invariants that the pre-tick time and the step are each below one
period), the wrap subtracts exactly one period, the post-wrap time lies in
`[0, 2*pi)`, the trace is empty immediately after the wrap-triggered
clear, and the driver stores exactly the carried-over remainder. -/
theorem claim_C3 (v : Visualizer) (hp : v.paused = false)
    (h1 : v.time < 2 * π) (h2 : v.animation_speed < 2 * π)
    (hw : 2 * π ≤ v.time + v.animation_speed) :
    (wrapStep (v.time + v.animation_speed) v.trace_points).1 =
      v.time + v.animation_speed - 2 * π ∧
    (wrapStep (v.time + v.animation_speed) v.trace_points).2 = [] ∧
    0 ≤ (wrapStep (v.time + v.animation_speed) v.trace_points).1 ∧
    (wrapStep (v.time + v.animation_speed) v.trace_points).1 < 2 * π ∧
    (update v).time = v.time + v.animation_speed - 2 * π := by
  have hws : wrapStep (v.time + v.animation_speed) v.trace_points =
      (v.time + v.animation_speed - 2 * π, []) := by
    rw [wrapStep, if_pos hw]
  rw [hws]
  refine ⟨rfl, rfl, ?_, ?_, ?_⟩
  · show (0 : ℝ) ≤ v.time + v.animation_speed - 2 * π
    linarith
  · show v.time + v.animation_speed - 2 * π < 2 * π
    linarith
  · simp [update, hp, hws]

/-- Concrete series used in the C3 witness. -/
def fsC3 : FourierSeries := ⟨"rectangular", [], 0, 1⟩

/-- Concrete playing visualizer state used in the C3 witness: time 5,
step 2, so the incremented time 7 crosses `2*pi`. -/
def vC3 : Visualizer := ⟨fsC3, 5, 2, false, [(0, 0)], 100, 800, 600, 1⟩

/-- C3 witness: the wrap behavior evaluated on the concrete state. -/
theorem claim_C3_witness :
    (vC3.paused = false ∧ vC3.time < 2 * π ∧ vC3.animation_speed < 2 * π ∧
      2 * π ≤ vC3.time + vC3.animation_speed) ∧
    (update vC3).time = vC3.time + vC3.animation_speed - 2 * π := by
  have hb1 : vC3.time < 2 * π := by
    show (5 : ℝ) < 2 * π
    nlinarith [Real.pi_gt_three]
  have hb2 : vC3.animation_speed < 2 * π := by
    show (2 : ℝ) < 2 * π
    nlinarith [Real.pi_gt_three]
  have hb3 : 2 * π ≤ vC3.time + vC3.animation_speed := by
    show 2 * π ≤ (5 : ℝ) + 2
    nlinarith [Real.pi_lt_d2]
  exact ⟨⟨rfl, hb1, hb2, hb3⟩, (claim_C3 vC3 rfl hb1 hb2 hb3).2.2.2.2⟩
